import Mathlib

/-!
Verification of the L1/L2-regularization demonstration notebook
(src/jupyter/L1-regularization.ipynb).

The notebook works over two-element weight vectors.  We embed weight
vectors as pairs of rationals (exact arithmetic in place of the
notebook's floating point), pure functions as Lean functions, and the
torch storage model (Variable data tensors, numpy views of their
storage, rebinding of the data attribute) as an explicit append-only
store of cells addressed by natural numbers.

Automatic differentiation is embedded by the closed-form derivatives
of the elementary loss and regularization terms, matching what
loss.backward() computes after the gradients are zeroed: the data-loss
gradients are the exact derivatives of the two quadratic loss
functions, the derivative of the 1-norm is the sign function with
sign 0 = 0 (the torch convention), and the derivative of the sum of
squares is the doubling map.
-/

namespace Distiller

/-- First data loss of the notebook: 0.5*(W[0]-3)**2 + 2.5*(W[1]-2)**2. -/
def loss_fn (W : ℚ × ℚ) : ℚ := (1/2) * (W.1 - 3)^2 + (5/2) * (W.2 - 2)^2

/-- Redefined data loss used by the near-sparsity cell:
0.5*(W[0]-0.3)**2 + 2.5*(W[1]-2)**2. -/
def loss_fn2 (W : ℚ × ℚ) : ℚ := (1/2) * (W.1 - 3/10)^2 + (5/2) * (W.2 - 2)^2

/-- First-cell (numpy) L1 regularizer: abs(W[0]) + abs(W[1]). -/
def L1_regularization_np (W : ℚ × ℚ) : ℚ := |W.1| + |W.2|

/-- First-cell (numpy) L2 regularizer: np.sqrt(W[0]**2 + W[1]**2).
The square root is irrational in general, so this definition lives in ℝ. -/
noncomputable def L2_regularization_np (W : ℚ × ℚ) : ℝ :=
  Real.sqrt ((W.1 : ℝ)^2 + (W.2 : ℝ)^2)

/-- torch W.norm(1): the 1-norm of the entries, i.e. the sum of their
absolute values. -/
def torchNorm1 (l : List ℚ) : ℚ := (l.map (fun x => |x|)).sum

/-- torch W.pow(2).sum(): the sum of the squared entries. -/
def torchPow2Sum (l : List ℚ) : ℚ := (l.map (fun x => x^2)).sum

/-- Second-cell (torch) L1 regularizer: W.norm(1). -/
def L1_regularization (W : ℚ × ℚ) : ℚ := torchNorm1 [W.1, W.2]

/-- Second-cell (torch) L2 regularizer: W.pow(2).sum(). -/
def L2_regularization (W : ℚ × ℚ) : ℚ := torchPow2Sum [W.1, W.2]

/-- torch sign convention used by the derivative of the 1-norm:
sign of a rational, with sign 0 = 0. -/
def sgn (x : ℚ) : ℚ := if x < 0 then -1 else if x = 0 then 0 else 1

/-- Gradient of the first data loss loss_fn. -/
def lossGrad1 (W : ℚ × ℚ) : ℚ × ℚ := (W.1 - 3, 5 * (W.2 - 2))

/-- Gradient of the redefined data loss loss_fn2. -/
def lossGrad2 (W : ℚ × ℚ) : ℚ × ℚ := (W.1 - 3/10, 5 * (W.2 - 2))

/-- One gradient-descent update of the training loop: W.data is
replaced by W.data - lr * W.grad.data, where the gradient is that of
loss_fn(W) + alpha * L1_regularization(W) + beta * L2_regularization(W)
with the (torch) regularizer derivatives sgn and doubling. -/
def stepW (g : ℚ × ℚ → ℚ × ℚ) (lr a b : ℚ) (W : ℚ × ℚ) : ℚ × ℚ :=
  (W.1 - lr * ((g W).1 + a * sgn W.1 + b * (2 * W.1)),
   W.2 - lr * ((g W).2 + a * sgn W.2 + b * (2 * W.2)))

/-- The weight vector after n updates, starting from W0. -/
def iterateW (g : ℚ × ℚ → ℚ × ℚ) (lr a b : ℚ) (W0 : ℚ × ℚ) (n : ℕ) : ℚ × ℚ :=
  (stepW g lr a b)^[n] W0

/-- The mathematical trajectory of a run: the list of the first n
iterates after at least one update, in order (the element at index i
is the weight vector after i + 1 updates; see snapshots_eq_map_range). -/
def snapshots (g : ℚ × ℚ → ℚ × ℚ) (lr a b : ℚ) : ℚ × ℚ → ℕ → List (ℚ × ℚ)
  | _, 0 => []
  | W0, n + 1 =>
    stepW g lr a b W0 :: snapshots g lr a b (stepW g lr a b W0) n

/-- The addresses of n cells allocated consecutively starting at an
address. -/
def addrList (len : ℕ) : ℕ → List ℕ
  | 0 => []
  | n + 1 => len :: addrList (len + 1) n

/-- The tensor store: an append-only list of two-element storage cells.
Cell addresses are list indices.  A torch tensor or a numpy view of it
is an address into the store. -/
structure Store where
  cells : List (ℚ × ℚ)

/-- Read the cell at an address (default junk outside the store). -/
def Store.read (s : Store) (a : ℕ) : ℚ × ℚ := s.cells.getD a (0, 0)

/-- The body of the training loop.  Each iteration reads the current
weight cell, computes the update, allocates a fresh cell for the new
W.data (the assignment W.data = W.data - lr * W.grad.data rebinds the
data attribute to a newly allocated tensor), records the address of
that fresh cell in guesses (guesses.append(W.data.numpy()) stores a
view of the new storage), and repoints the variable at it. -/
def trainLoop (g : ℚ × ℚ → ℚ × ℚ) (lr a b : ℚ) :
    ℕ → Store → ℕ → List ℕ → Store × ℕ × List ℕ
  | 0, s, wa, gs => (s, wa, gs)
  | Nat.succ n, s, wa, gs =>
    trainLoop g lr a b n ⟨s.cells ++ [stepW g lr a b (s.read wa)]⟩
      s.cells.length (gs ++ [s.cells.length])

/-- train(W, lr, alpha, beta, num_steps): run num_steps iterations of
the loop starting from an empty guesses list, on the variable whose
data cell is at address wa.  Returns the final store, the final
address of W.data, and the recorded guess addresses. -/
def train (g : ℚ × ℚ → ℚ × ℚ) (lr a b : ℚ) (num_steps : ℕ)
    (s : Store) (wa : ℕ) : Store × ℕ × List ℕ :=
  trainLoop g lr a b num_steps s wa []

/-- Reading out the recorded snapshots at the end of a run, as
np.array(guesses) does: dereference every recorded view in the final
store. -/
def readout (r : Store × ℕ × List ℕ) : List (ℚ × ℚ) :=
  r.2.2.map r.1.read

/-- initial_guess = torch.Tensor([8,5]). -/
def initial_guess : ℚ × ℚ := (8, 5)

/-- lr = 0.04. -/
def lr : ℚ := 1/25

/-- alpha = 0.75. -/
def alpha : ℚ := 3/4

/-- beta = 0.75. -/
def beta : ℚ := 3/4

/-- num_steps = 1000. -/
def num_steps : ℕ := 1000

/-- The store at the start of the training cell: initial_guess owns
cell 0, and W = Variable(initial_guess) shares that cell. -/
def store0 : Store := ⟨[initial_guess]⟩

/-- After W_l1_reg = Variable(initial_guess.clone()): the clone
allocates cell 1. -/
def store1 : Store := ⟨store0.cells ++ [store0.read 0]⟩

/-- After W_l2_reg = Variable(initial_guess.clone()): the second clone
allocates cell 2. -/
def store2 : Store := ⟨store1.cells ++ [store1.read 0]⟩

/-- First run: train(W, lr, alpha=0, beta=0, num_steps) on cell 0. -/
def run1 : Store × ℕ × List ℕ := train lossGrad1 lr 0 0 num_steps store2 0

/-- Second run: train(W_l1_reg, lr, alpha, 0, num_steps) on cell 1. -/
def run2 : Store × ℕ × List ℕ := train lossGrad1 lr alpha 0 num_steps run1.1 1

/-- Third run: train(W_l2_reg, lr, 0, beta, num_steps) on cell 2. -/
def run3 : Store × ℕ × List ℕ := train lossGrad1 lr 0 beta num_steps run2.1 2

/-- Near-sparsity run: after loss_fn is redefined, W =
Variable(initial_guess) shares cell 0 again and is trained with L1
regularization. -/
def run4 : Store × ℕ × List ℕ := train lossGrad2 lr alpha 0 num_steps run3.1 0

/-- First coordinate of the near-sparsity trajectory. -/
def w0sp (n : ℕ) : ℚ := (iterateW lossGrad2 lr alpha 0 initial_guess n).1

/- ------------------------------------------------------------------
Basic facts about the embedded derivatives: exact Taylor identities
showing lossGrad1 and lossGrad2 are the derivatives of loss_fn and
loss_fn2. -/

theorem lossGrad1_taylor (V W : ℚ × ℚ) :
    loss_fn W = loss_fn V + (lossGrad1 V).1 * (W.1 - V.1)
      + (lossGrad1 V).2 * (W.2 - V.2)
      + (1/2) * (W.1 - V.1)^2 + (5/2) * (W.2 - V.2)^2 := by
  simp only [loss_fn, lossGrad1]
  ring

theorem lossGrad2_taylor (V W : ℚ × ℚ) :
    loss_fn2 W = loss_fn2 V + (lossGrad2 V).1 * (W.1 - V.1)
      + (lossGrad2 V).2 * (W.2 - V.2)
      + (1/2) * (W.1 - V.1)^2 + (5/2) * (W.2 - V.2)^2 := by
  simp only [loss_fn2, lossGrad2]
  ring

/- ------------------------------------------------------------------
C6: both L1 regularizers compute the sum of absolute values. -/

/-- C6: Both L1_regularization functions compute the penalty as the
sum of the absolute values of the two weights: the first-cell numpy
version abs(W[0]) + abs(W[1]) and the torch version W.norm(1) both
send (w0, w1) to the absolute value of w0 plus the absolute value
of w1. -/
theorem c6_l1_regularization (w0 w1 : ℚ) :
    L1_regularization_np (w0, w1) = |w0| + |w1| ∧
    L1_regularization (w0, w1) = |w0| + |w1| := by
  constructor
  · rfl
  · simp [L1_regularization, torchNorm1]

/- ------------------------------------------------------------------
C2: the torch L2 regularizer is the sum of squares, but the first-cell
numpy one is the square root of the sum of squares. -/

/-- C2 counterexample: at the weight vector (3, 4) the first-cell
L2_regularization returns 5, the square root of the sum of squares,
and not the sum of squares 3^2 + 4^2 = 25.  This refutes the claim
that every L2_regularization function in the program computes the sum
of squared weights. -/
theorem c2_counterexample :
    L2_regularization_np (3, 4) = 5 ∧
    L2_regularization_np (3, 4) ≠ ((3 : ℝ)^2 + (4 : ℝ)^2) := by
  have h5 : L2_regularization_np (3, 4) = 5 := by
    unfold L2_regularization_np
    have h : ((3 : ℚ) : ℝ)^2 + ((4 : ℚ) : ℝ)^2 = (5 : ℝ)^2 := by norm_num
    rw [h, Real.sqrt_sq (by norm_num : (0 : ℝ) ≤ 5)]
  refine ⟨h5, ?_⟩
  rw [h5]
  norm_num

/-- C2 amended: the torch L2_regularization (W.pow(2).sum()) computes
the sum of squared weights, while the first-cell numpy
L2_regularization computes the L2 norm, the nonnegative square root of
the sum of squared weights. -/
theorem c2_l2_regularization_amended :
    (∀ W : ℚ × ℚ, L2_regularization W = W.1^2 + W.2^2) ∧
    (∀ W : ℚ × ℚ, 0 ≤ L2_regularization_np W ∧
      (L2_regularization_np W)^2 = (W.1 : ℝ)^2 + (W.2 : ℝ)^2) := by
  constructor
  · intro W
    simp [L2_regularization, torchPow2Sum]
  · intro W
    refine ⟨Real.sqrt_nonneg _, ?_⟩
    unfold L2_regularization_np
    rw [Real.sq_sqrt]
    positivity

/- ------------------------------------------------------------------
C7: the data loss is convex, nonnegative, and has (3, 2) as its unique
global minimum with value 0. -/

/-- C7: loss_fn is convex (its value at any convex combination of two
weight vectors is at most the corresponding combination of its
values), it is nonnegative everywhere, it vanishes at (3, 2), and
(3, 2) is the only weight vector where it vanishes, so (3, 2) is the
unique global minimum with value 0. -/
theorem c7_loss_convex_min :
    (∀ (V W : ℚ × ℚ) (t : ℚ), 0 ≤ t → t ≤ 1 →
      loss_fn (t * V.1 + (1 - t) * W.1, t * V.2 + (1 - t) * W.2) ≤
        t * loss_fn V + (1 - t) * loss_fn W) ∧
    (∀ W : ℚ × ℚ, 0 ≤ loss_fn W) ∧
    loss_fn (3, 2) = 0 ∧
    (∀ W : ℚ × ℚ, loss_fn W = 0 → W = (3, 2)) := by
  refine ⟨?_, ?_, ?_, ?_⟩
  · intro V W t ht ht1
    have h1t : 0 ≤ 1 - t := by linarith
    simp only [loss_fn]
    nlinarith [mul_nonneg (mul_nonneg ht h1t) (sq_nonneg (V.1 - W.1)),
      mul_nonneg (mul_nonneg ht h1t) (sq_nonneg (V.2 - W.2))]
  · intro W
    simp only [loss_fn]
    positivity
  · simp [loss_fn]
  · intro W h
    simp only [loss_fn] at h
    have h1 : (W.1 - 3)^2 = 0 := by nlinarith [sq_nonneg (W.1 - 3), sq_nonneg (W.2 - 2)]
    have h2 : (W.2 - 2)^2 = 0 := by nlinarith [sq_nonneg (W.1 - 3), sq_nonneg (W.2 - 2)]
    have e1 : W.1 = 3 := by nlinarith [h1]
    have e2 : W.2 = 2 := by nlinarith [h2]
    exact Prod.ext e1 e2

/-- C7 witness: the convexity inequality of c7_loss_convex_min at the
midpoint of (3, 2) and (5, 4). -/
theorem c7_loss_convex_min_witness :
    loss_fn ((1/2 : ℚ) * 3 + (1 - 1/2) * 5, (1/2 : ℚ) * 2 + (1 - 1/2) * 4) ≤
      (1/2 : ℚ) * loss_fn (3, 2) + (1 - 1/2) * loss_fn (5, 4) :=
  c7_loss_convex_min.1 (3, 2) (5, 4) (1/2) (by norm_num) (by norm_num)

/- ------------------------------------------------------------------
The training loop: closed-form characterization. -/

theorem snapshots_length (g : ℚ × ℚ → ℚ × ℚ) (lr a b : ℚ) :
    ∀ (n : ℕ) (W0 : ℚ × ℚ), (snapshots g lr a b W0 n).length = n := by
  intro n
  induction n with
  | zero => intro W0; rfl
  | succ n ih => intro W0; simp [snapshots, ih]

theorem snapshots_getElem (g : ℚ × ℚ → ℚ × ℚ) (lr a b : ℚ) :
    ∀ (n : ℕ) (W0 : ℚ × ℚ) (i : ℕ) (h : i < (snapshots g lr a b W0 n).length),
      (snapshots g lr a b W0 n)[i] = iterateW g lr a b W0 (i + 1) := by
  intro n
  induction n with
  | zero =>
    intro W0 i h
    rw [snapshots_length] at h
    exact absurd h (Nat.not_lt_zero i)
  | succ n ih =>
    intro W0 i h
    rcases i with _ | j
    · simp [snapshots, iterateW]
    · have hj : j < (snapshots g lr a b (stepW g lr a b W0) n).length := by
        rw [snapshots_length]
        rw [snapshots_length] at h
        omega
      calc (snapshots g lr a b W0 (n + 1))[j + 1]
          = (snapshots g lr a b (stepW g lr a b W0) n)[j] := by
            simp [snapshots]
        _ = iterateW g lr a b (stepW g lr a b W0) (j + 1) := ih _ j hj
        _ = iterateW g lr a b W0 (j + 1 + 1) := by
            simp [iterateW, Function.iterate_succ_apply]

theorem snapshots_getD (g : ℚ × ℚ → ℚ × ℚ) (lr a b : ℚ) (W0 : ℚ × ℚ)
    {n i : ℕ} (h : i < n) (d : ℚ × ℚ) :
    (snapshots g lr a b W0 n).getD i d = iterateW g lr a b W0 (i + 1) := by
  have hl : i < (snapshots g lr a b W0 n).length := by
    rw [snapshots_length]; exact h
  rw [List.getD_eq_getElem _ _ hl]
  exact snapshots_getElem g lr a b n W0 i hl

/-- Sanity check: the recursive trajectory is exactly the list of the
iterates 1 through n. -/
theorem snapshots_eq_map_range (g : ℚ × ℚ → ℚ × ℚ) (lr a b : ℚ)
    (W0 : ℚ × ℚ) (n : ℕ) :
    snapshots g lr a b W0 n =
      (List.range n).map (fun i => iterateW g lr a b W0 (i + 1)) := by
  apply List.ext_getElem
  · simp [snapshots_length]
  · intro i h1 h2
    rw [snapshots_getElem g lr a b n W0 i h1]
    simp

theorem addrList_length : ∀ (n len : ℕ), (addrList len n).length = n := by
  intro n
  induction n with
  | zero => intro len; rfl
  | succ n ih => intro len; simp [addrList, ih]

theorem addrList_getElem :
    ∀ (n len i : ℕ) (h : i < (addrList len n).length),
      (addrList len n)[i] = len + i := by
  intro n
  induction n with
  | zero =>
    intro len i h
    rw [addrList_length] at h
    exact absurd h (Nat.not_lt_zero i)
  | succ n ih =>
    intro len i h
    rcases i with _ | j
    · simp [addrList]
    · have hj : j < (addrList (len + 1) n).length := by
        rw [addrList_length]
        rw [addrList_length] at h
        omega
      calc (addrList len (n + 1))[j + 1]
          = (addrList (len + 1) n)[j] := by simp [addrList]
        _ = len + 1 + j := ih (len + 1) j hj
        _ = len + (j + 1) := by omega

theorem Store.read_last (s : Store) (v : ℚ × ℚ) :
    Store.read ⟨s.cells ++ [v]⟩ s.cells.length = v := by
  unfold Store.read
  rw [List.getD_append_right _ _ _ _ le_rfl]
  simp

theorem trainLoop_spec (g : ℚ × ℚ → ℚ × ℚ) (lr a b : ℚ) :
    ∀ (n : ℕ) (s : Store) (wa : ℕ) (gs : List ℕ),
      trainLoop g lr a b n s wa gs =
        (⟨s.cells ++ snapshots g lr a b (s.read wa) n⟩,
         (if n = 0 then wa else s.cells.length + (n - 1)),
         gs ++ addrList s.cells.length n) := by
  intro n
  induction n with
  | zero =>
    intro s wa gs
    show (s, wa, gs) = (⟨s.cells ++ []⟩, wa, gs ++ [])
    simp
  | succ n ih =>
    intro s wa gs
    have h1 : trainLoop g lr a b (Nat.succ n) s wa gs =
        trainLoop g lr a b n ⟨s.cells ++ [stepW g lr a b (s.read wa)]⟩
          s.cells.length (gs ++ [s.cells.length]) := rfl
    rw [h1, ih]
    have hread : Store.read ⟨s.cells ++ [stepW g lr a b (s.read wa)]⟩
        s.cells.length = stepW g lr a b (s.read wa) := Store.read_last s _
    rw [hread]
    have hlen : (s.cells ++ [stepW g lr a b (s.read wa)]).length =
        s.cells.length + 1 := by
      simp
    simp only [Prod.mk.injEq, Store.mk.injEq]
    refine ⟨?_, ?_, ?_⟩
    · have hsnap : snapshots g lr a b (s.read wa) (n + 1) =
          stepW g lr a b (s.read wa) ::
            snapshots g lr a b (stepW g lr a b (s.read wa)) n := rfl
      rw [hsnap, List.append_cons, List.append_assoc]
      simp
    · rcases n with _ | m
      · simp
      · rw [if_neg (Nat.succ_ne_zero m), if_neg (Nat.succ_ne_zero (m + 1)),
          hlen]
        omega
    · have haddr : addrList s.cells.length (n + 1) =
          s.cells.length :: addrList (s.cells.length + 1) n := rfl
      rw [haddr, hlen]
      simp

theorem train_spec (g : ℚ × ℚ → ℚ × ℚ) (lr a b : ℚ) (n : ℕ) (s : Store)
    (wa : ℕ) :
    train g lr a b n s wa =
      (⟨s.cells ++ snapshots g lr a b (s.read wa) n⟩,
       (if n = 0 then wa else s.cells.length + (n - 1)),
       addrList s.cells.length n) := by
  rw [train, trainLoop_spec]
  simp

theorem train_cells (g : ℚ × ℚ → ℚ × ℚ) (lr a b : ℚ) (n : ℕ) (s : Store)
    (wa : ℕ) :
    (train g lr a b n s wa).1.cells =
      s.cells ++ snapshots g lr a b (s.read wa) n := by
  rw [train_spec]

theorem train_guesses (g : ℚ × ℚ → ℚ × ℚ) (lr a b : ℚ) (n : ℕ) (s : Store)
    (wa : ℕ) :
    (train g lr a b n s wa).2.2 = addrList s.cells.length n := by
  rw [train_spec]

theorem train_cells_length (g : ℚ × ℚ → ℚ × ℚ) (lr a b : ℚ) (n : ℕ)
    (s : Store) (wa : ℕ) :
    (train g lr a b n s wa).1.cells.length = s.cells.length + n := by
  rw [train_cells]
  simp [snapshots_length]

theorem train_num_guesses (g : ℚ × ℚ → ℚ × ℚ) (lr a b : ℚ) (n : ℕ)
    (s : Store) (wa : ℕ) :
    ((train g lr a b n s wa).2.2).length = n := by
  rw [train_guesses, addrList_length]

theorem train_read_preserved (g : ℚ × ℚ → ℚ × ℚ) (lr a b : ℚ) (n : ℕ)
    (s : Store) (wa : ℕ) {i : ℕ} (h : i < s.cells.length) :
    (train g lr a b n s wa).1.read i = s.read i := by
  unfold Store.read
  rw [train_cells, List.getD_append _ _ _ _ h]

theorem train_read_guess (g : ℚ × ℚ → ℚ × ℚ) (lr a b : ℚ) (n : ℕ)
    (s : Store) (wa : ℕ) {i : ℕ} (h : i < n) :
    (train g lr a b n s wa).1.read (s.cells.length + i) =
      iterateW g lr a b (s.read wa) (i + 1) := by
  unfold Store.read
  rw [train_cells, List.getD_append_right _ _ _ _ (Nat.le_add_right _ _),
    Nat.add_sub_cancel_left]
  exact snapshots_getD g lr a b _ h _

theorem train_readout (g : ℚ × ℚ → ℚ × ℚ) (lr a b : ℚ) (n : ℕ) (s : Store)
    (wa : ℕ) :
    readout (train g lr a b n s wa) =
      snapshots g lr a b (s.read wa) n := by
  unfold readout
  rw [train_guesses]
  apply List.ext_getElem
  · simp [snapshots_length, addrList_length]
  · intro i h1 h2
    rw [snapshots_getElem]
    have hi : i < (addrList s.cells.length n).length := by
      simpa using h1
    have hin : i < n := by
      rw [addrList_length] at hi
      exact hi
    rw [List.getElem_map, addrList_getElem n s.cells.length i hi]
    exact train_read_guess g lr a b n s wa hin

/- ------------------------------------------------------------------
C3, C8: the returned guesses list. -/

/-- C3: train(W, lr, alpha, beta, num_steps) returns a list of exactly
num_steps recorded snapshots, and for every index i below num_steps
the i-th recorded entry, read out in the final store, equals the value
of the weight vector immediately after the i-th gradient update. -/
theorem c3_train_snapshots (g : ℚ × ℚ → ℚ × ℚ) (lr a b : ℚ) (n : ℕ)
    (s : Store) (wa i : ℕ) (h : i < n) :
    ((train g lr a b n s wa).2.2).length = n ∧
    (train g lr a b n s wa).1.read (((train g lr a b n s wa).2.2).getD i 0)
      = iterateW g lr a b (s.read wa) (i + 1) := by
  refine ⟨train_num_guesses g lr a b n s wa, ?_⟩
  have hg : ((train g lr a b n s wa).2.2).getD i 0 = s.cells.length + i := by
    rw [train_guesses]
    have hi : i < (addrList s.cells.length n).length := by
      rw [addrList_length]
      exact h
    rw [List.getD_eq_getElem _ _ hi, addrList_getElem n _ i hi]
  rw [hg]
  exact train_read_guess g lr a b n s wa h

/-- C3 witness: the snapshot property at a concrete one-step run. -/
theorem c3_train_snapshots_witness :
    ((train lossGrad1 1 0 0 1 store0 0).2.2).length = 1 ∧
    (train lossGrad1 1 0 0 1 store0 0).1.read
      (((train lossGrad1 1 0 0 1 store0 0).2.2).getD 0 0)
      = iterateW lossGrad1 1 0 0 (store0.read 0) 1 :=
  c3_train_snapshots lossGrad1 1 0 0 1 store0 0 0 (by norm_num)

/-- C8: every call to train terminates (train is a total function,
defined by structural recursion on num_steps) and performs exactly
num_steps loop iterations, one weight update and one recorded
snapshot per iteration: the guesses list has exactly num_steps
entries and exactly num_steps fresh cells are allocated; in
particular each of the four configured runs with num_steps = 1000
executes exactly 1000 steps. -/
theorem c8_train_terminates (g : ℚ × ℚ → ℚ × ℚ) (lr a b : ℚ) (n : ℕ)
    (s : Store) (wa : ℕ) :
    ((train g lr a b n s wa).2.2).length = n ∧
    (train g lr a b n s wa).1.cells.length = s.cells.length + n ∧
    run1.2.2.length = 1000 ∧ run2.2.2.length = 1000 ∧
    run3.2.2.length = 1000 ∧ run4.2.2.length = 1000 := by
  refine ⟨train_num_guesses g lr a b n s wa,
    train_cells_length g lr a b n s wa, ?_, ?_, ?_, ?_⟩ <;>
    simp [run1, run2, run3, run4, num_steps, train_num_guesses]

/- ------------------------------------------------------------------
C5: the recorded entries are NOT all equal to the final weight
vector; they are the genuine per-step iterates, because the update
rebinds W.data to fresh storage instead of mutating in place. -/

/-- C5 counterexample: in a 2-step unregularized run from (8, 5), the
first and the second recorded entries of the read-out guesses list
differ (they are (7.8, 4.4) and (7.608, 3.92)), so the entries
returned by train are not all equal to one another and to the final
weight vector. -/
theorem c5_counterexample :
    (readout (train lossGrad1 lr 0 0 2 store0 0)).getD 0 (0, 0) ≠
      (readout (train lossGrad1 lr 0 0 2 store0 0)).getD 1 (0, 0) := by
  rw [train_readout]
  have h0 : store0.read 0 = ((8 : ℚ), (5 : ℚ)) := rfl
  rw [h0]
  norm_num [snapshots, stepW, lossGrad1, sgn, lr, Prod.ext_iff]

/-- C5 corrected: each update rebinds W.data to a freshly allocated
cell, so the recorded views are never overwritten by later steps:
after train returns, the entry at index i of the read-out guesses
list equals the weight vector immediately after update i + 1 -- the
genuine trajectory, not num_steps copies of the final point. -/
theorem c5_snapshots_amended (g : ℚ × ℚ → ℚ × ℚ) (lr a b : ℚ) (n : ℕ)
    (s : Store) (wa i : ℕ) (h : i < n) :
    (readout (train g lr a b n s wa)).getD i (0, 0) =
      iterateW g lr a b (s.read wa) (i + 1) := by
  rw [train_readout]
  exact snapshots_getD g lr a b _ h _

/-- C5 witness: the corrected snapshot property at a concrete
three-step run. -/
theorem c5_snapshots_amended_witness :
    (readout (train lossGrad1 1 0 0 3 store0 0)).getD 2 (0, 0) =
      iterateW lossGrad1 1 0 0 (store0.read 0) 3 :=
  c5_snapshots_amended lossGrad1 1 0 0 3 store0 0 2 (by norm_num)

/- ------------------------------------------------------------------
C9: the runs are independent and all start from (8, 5). -/

/-- C9: the three training runs of the plotting cell and the later
near-sparsity run are independent and all start from (8, 5): the two
clones occupy their own cells, a run only allocates fresh cells and
never overwrites existing ones, so after each run the cells of
initial_guess (shared with W), W_l1_reg and W_l2_reg still hold
(8, 5), every run reads (8, 5) as its starting weight vector
(including the near-sparsity run, which shares initial_guess's cell
again), and each run's recorded trajectory is the pure gradient
descent iteration started at (8, 5). -/
theorem c9_runs_independent :
    store2.read 0 = initial_guess ∧
    store2.read 1 = initial_guess ∧
    store2.read 2 = initial_guess ∧
    run1.1.read 0 = initial_guess ∧
    run1.1.read 1 = initial_guess ∧
    run1.1.read 2 = initial_guess ∧
    run2.1.read 0 = initial_guess ∧
    run2.1.read 2 = initial_guess ∧
    run3.1.read 0 = initial_guess ∧
    readout run1 = snapshots lossGrad1 lr 0 0 initial_guess num_steps ∧
    readout run2 = snapshots lossGrad1 lr alpha 0 initial_guess num_steps ∧
    readout run3 = snapshots lossGrad1 lr 0 beta initial_guess num_steps ∧
    readout run4 = snapshots lossGrad2 lr alpha 0 initial_guess num_steps := by
  have hrun1 : run1 = train lossGrad1 lr 0 0 num_steps store2 0 := rfl
  have hrun2 : run2 = train lossGrad1 lr alpha 0 num_steps run1.1 1 := rfl
  have hrun3 : run3 = train lossGrad1 lr 0 beta num_steps run2.1 2 := rfl
  have hrun4 : run4 = train lossGrad2 lr alpha 0 num_steps run3.1 0 := rfl
  have hlen2 : store2.cells.length = 3 := rfl
  have hs0 : store2.read 0 = initial_guess := rfl
  have hs1 : store2.read 1 = initial_guess := rfl
  have hs2 : store2.read 2 = initial_guess := rfl
  have hsAll : ∀ k, k < 3 → store2.read k = initial_guess := by
    intro k hk
    interval_cases k
    · exact hs0
    · exact hs1
    · exact hs2
  have hr1 : ∀ k, k < 3 → run1.1.read k = initial_guess := by
    intro k hk
    rw [hrun1,
      train_read_preserved lossGrad1 lr 0 0 num_steps store2 0
        (by rw [hlen2]; exact hk)]
    exact hsAll k hk
  have hl1 : run1.1.cells.length = 3 + num_steps := by
    rw [hrun1, train_cells_length, hlen2]
  have hr2 : ∀ k, k < 3 → run2.1.read k = run1.1.read k := by
    intro k hk
    rw [hrun2]
    exact train_read_preserved lossGrad1 lr alpha 0 num_steps run1.1 1
      (by rw [hl1]; omega)
  have hl2 : run2.1.cells.length = 3 + num_steps + num_steps := by
    rw [hrun2, train_cells_length, hl1]
  have hr3 : ∀ k, k < 3 → run3.1.read k = run2.1.read k := by
    intro k hk
    rw [hrun3]
    exact train_read_preserved lossGrad1 lr 0 beta num_steps run2.1 2
      (by rw [hl2]; omega)
  have h20 : run2.1.read 0 = initial_guess :=
    (hr2 0 (by norm_num)).trans (hr1 0 (by norm_num))
  have h22 : run2.1.read 2 = initial_guess :=
    (hr2 2 (by norm_num)).trans (hr1 2 (by norm_num))
  have h30 : run3.1.read 0 = initial_guess :=
    (hr3 0 (by norm_num)).trans h20
  have hro1 : readout run1 = snapshots lossGrad1 lr 0 0 initial_guess
      num_steps := by
    rw [hrun1, train_readout, hs0]
  have hro2 : readout run2 = snapshots lossGrad1 lr alpha 0 initial_guess
      num_steps := by
    rw [hrun2, train_readout, hr1 1 (by norm_num)]
  have hro3 : readout run3 = snapshots lossGrad1 lr 0 beta initial_guess
      num_steps := by
    rw [hrun3, train_readout, h22]
  have hro4 : readout run4 = snapshots lossGrad2 lr alpha 0 initial_guess
      num_steps := by
    rw [hrun4, train_readout, h30]
  exact ⟨hs0, hs1, hs2, hr1 0 (by norm_num), hr1 1 (by norm_num),
    hr1 2 (by norm_num), h20, h22, h30, hro1, hro2, hro3, hro4⟩

/- ------------------------------------------------------------------
C1, C10: closed form of the unregularized run. -/

theorem iterateW_succ (g : ℚ × ℚ → ℚ × ℚ) (lr a b : ℚ) (W0 : ℚ × ℚ)
    (n : ℕ) :
    iterateW g lr a b W0 (n + 1) =
      stepW g lr a b (iterateW g lr a b W0 n) := by
  simp [iterateW, Function.iterate_succ_apply']

theorem iterate_unreg_closed (n : ℕ) :
    iterateW lossGrad1 lr 0 0 initial_guess n =
      (3 + 5 * (24/25)^n, 2 + 3 * (4/5)^n) := by
  induction n with
  | zero =>
    show initial_guess = _
    rw [initial_guess]
    norm_num
  | succ n ih =>
    rw [iterateW_succ, ih]
    simp only [stepW, lossGrad1, lr, Prod.mk.injEq]
    constructor <;> ring

/-- C1: in the unregularized run (alpha = beta = 0, lr = 0.04) each
update maps (w0, w1) to (w0 - 0.04*(w0-3), w1 - 0.04*5*(w1-2));
consequently along the run started from (8, 5) the distance |w0 - 3|
shrinks by the factor 0.96 and the distance |w1 - 2| by the factor
0.8 at every step, and the iterates converge to the analytic minimum
(3, 2). -/
theorem c1_unregularized_descent :
    (∀ W : ℚ × ℚ, stepW lossGrad1 lr 0 0 W =
      (W.1 - (1/25) * (W.1 - 3), W.2 - (1/25) * (5 * (W.2 - 2)))) ∧
    (∀ n : ℕ,
      |(iterateW lossGrad1 lr 0 0 initial_guess (n+1)).1 - 3| =
        (24/25) * |(iterateW lossGrad1 lr 0 0 initial_guess n).1 - 3| ∧
      |(iterateW lossGrad1 lr 0 0 initial_guess (n+1)).2 - 2| =
        (4/5) * |(iterateW lossGrad1 lr 0 0 initial_guess n).2 - 2|) ∧
    (∀ ε : ℚ, 0 < ε → ∃ N : ℕ, ∀ n : ℕ, N ≤ n →
      |(iterateW lossGrad1 lr 0 0 initial_guess n).1 - 3| < ε ∧
      |(iterateW lossGrad1 lr 0 0 initial_guess n).2 - 2| < ε) := by
  refine ⟨?_, ?_, ?_⟩
  · intro W
    simp only [stepW, lossGrad1, lr, Prod.mk.injEq]
    constructor <;> ring
  · intro n
    rw [iterate_unreg_closed n, iterate_unreg_closed (n+1)]
    have e1 : ((3:ℚ) + 5 * (24/25)^(n+1)) - 3 = 5 * (24/25)^(n+1) := by ring
    have e2 : ((3:ℚ) + 5 * (24/25)^n) - 3 = 5 * (24/25)^n := by ring
    have e3 : ((2:ℚ) + 3 * (4/5)^(n+1)) - 2 = 3 * (4/5)^(n+1) := by ring
    have e4 : ((2:ℚ) + 3 * (4/5)^n) - 2 = 3 * (4/5)^n := by ring
    constructor
    · show |((3:ℚ) + 5 * (24/25)^(n+1)) - 3| =
        (24/25) * |((3:ℚ) + 5 * (24/25)^n) - 3|
      rw [e1, e2, abs_of_nonneg (by positivity), abs_of_nonneg (by positivity)]
      ring
    · show |((2:ℚ) + 3 * (4/5)^(n+1)) - 2| =
        (4/5) * |((2:ℚ) + 3 * (4/5)^n) - 2|
      rw [e3, e4, abs_of_nonneg (by positivity), abs_of_nonneg (by positivity)]
      ring
  · intro ε hε
    obtain ⟨N, hN⟩ := exists_pow_lt_of_lt_one
      (by positivity : (0:ℚ) < ε/5) (by norm_num : (24:ℚ)/25 < 1)
    refine ⟨N, fun n hn => ?_⟩
    have hmono : ((24:ℚ)/25)^n ≤ ((24:ℚ)/25)^N :=
      pow_le_pow_of_le_one (by norm_num) (by norm_num) hn
    have hcmp : ((4:ℚ)/5)^n ≤ ((24:ℚ)/25)^n :=
      pow_le_pow_left₀ (by norm_num) (by norm_num) n
    rw [iterate_unreg_closed n]
    have e2 : ((3:ℚ) + 5 * (24/25)^n) - 3 = 5 * (24/25)^n := by ring
    have e4 : ((2:ℚ) + 3 * (4/5)^n) - 2 = 3 * (4/5)^n := by ring
    constructor
    · show |((3:ℚ) + 5 * (24/25)^n) - 3| < ε
      rw [e2, abs_of_nonneg (by positivity)]
      linarith
    · show |((2:ℚ) + 3 * (4/5)^n) - 2| < ε
      rw [e4, abs_of_nonneg (by positivity)]
      have h45 : (0:ℚ) ≤ (4/5)^n := by positivity
      linarith

/-- C1 witness: convergence of c1_unregularized_descent instantiated
at the tolerance 1. -/
theorem c1_unregularized_descent_witness :
    ∃ N : ℕ, ∀ n : ℕ, N ≤ n →
      |(iterateW lossGrad1 lr 0 0 initial_guess n).1 - 3| < 1 ∧
      |(iterateW lossGrad1 lr 0 0 initial_guess n).2 - 2| < 1 :=
  c1_unregularized_descent.2.2 1 (by norm_num)

/-- C10: along the unregularized run from (8, 5) every iterate stays
in the box 3 <= w0 <= 8, 2 <= w1 <= 5, and both coordinates strictly
decrease at every step, never overshooting the minimum (3, 2). -/
theorem c10_monotone_box (n : ℕ) :
    3 ≤ (iterateW lossGrad1 lr 0 0 initial_guess n).1 ∧
    (iterateW lossGrad1 lr 0 0 initial_guess n).1 ≤ 8 ∧
    2 ≤ (iterateW lossGrad1 lr 0 0 initial_guess n).2 ∧
    (iterateW lossGrad1 lr 0 0 initial_guess n).2 ≤ 5 ∧
    (iterateW lossGrad1 lr 0 0 initial_guess (n+1)).1 <
      (iterateW lossGrad1 lr 0 0 initial_guess n).1 ∧
    (iterateW lossGrad1 lr 0 0 initial_guess (n+1)).2 <
      (iterateW lossGrad1 lr 0 0 initial_guess n).2 := by
  rw [iterate_unreg_closed n, iterate_unreg_closed (n+1)]
  have hp1 : (0:ℚ) < (24/25)^n := by positivity
  have hp2 : (0:ℚ) < (4/5)^n := by positivity
  have hle1 : ((24:ℚ)/25)^n ≤ 1 := pow_le_one₀ (by norm_num) (by norm_num)
  have hle2 : ((4:ℚ)/5)^n ≤ 1 := pow_le_one₀ (by norm_num) (by norm_num)
  have hs1 : ((24:ℚ)/25)^(n+1) = (24/25)^n * (24/25) := by ring
  have hs2 : ((4:ℚ)/5)^(n+1) = (4/5)^n * (4/5) := by ring
  refine ⟨?_, ?_, ?_, ?_, ?_, ?_⟩
  · show (3:ℚ) ≤ 3 + 5 * (24/25)^n
    linarith
  · show (3:ℚ) + 5 * (24/25)^n ≤ 8
    linarith
  · show (2:ℚ) ≤ 2 + 3 * (4/5)^n
    linarith
  · show (2:ℚ) + 3 * (4/5)^n ≤ 5
    linarith
  · show (3:ℚ) + 5 * (24/25)^(n+1) < 3 + 5 * (24/25)^n
    rw [hs1]
    nlinarith
  · show (2:ℚ) + 3 * (4/5)^(n+1) < 2 + 3 * (4/5)^n
    rw [hs2]
    nlinarith

/- ------------------------------------------------------------------
C4: the near-sparsity run.  The w0 coordinate obeys the autonomous
recurrence w0 -> 0.96*w0 + 0.012 - 0.03*sgn(w0) (independently of
w1). -/

theorem sgn_of_pos {x : ℚ} (h : 0 < x) : sgn x = 1 := by
  unfold sgn
  rw [if_neg (not_lt.mpr h.le), if_neg h.ne']

theorem sgn_of_neg {x : ℚ} (h : x < 0) : sgn x = -1 := by
  unfold sgn
  rw [if_pos h]

theorem w0sp_zero : w0sp 0 = 8 := rfl

theorem w0sp_rec (n : ℕ) :
    w0sp (n + 1) = (24/25) * w0sp n + 3/250 - (3/100) * sgn (w0sp n) := by
  unfold w0sp
  rw [iterateW_succ]
  simp only [stepW, lossGrad2, lr, alpha]
  ring

/-- Parity invariant: from step 1 on, w0 times 500 * 25 ^ n is an odd
integer; in particular it is never zero. -/
theorem w0sp_scaled_odd : ∀ n : ℕ, ∃ k : ℤ, Odd k ∧
    w0sp (n + 1) * (500 * 25^(n + 1)) = (k : ℚ) := by
  intro n
  induction n with
  | zero =>
    refine ⟨95775, ⟨47887, by norm_num⟩, ?_⟩
    rw [w0sp_rec 0, w0sp_zero, sgn_of_pos (by norm_num : (0:ℚ) < 8)]
    norm_num
  | succ n ih =>
    obtain ⟨k, hk, heq⟩ := ih
    have hne : w0sp (n + 1) ≠ 0 := by
      intro h0
      rw [h0, zero_mul] at heq
      have hk0 : k = 0 := by exact_mod_cast heq.symm
      rw [hk0] at hk
      obtain ⟨m, hm⟩ := hk
      omega
    rcases lt_or_gt_of_ne hne with hneg | hpos
    · refine ⟨24 * k + 21 * 25^(n + 2), ?_, ?_⟩
      · exact Even.add_odd ⟨12 * k, by ring⟩
          (Odd.mul ⟨10, by norm_num⟩ (Odd.pow ⟨12, by norm_num⟩))
      · rw [w0sp_rec (n + 1), sgn_of_neg hneg]
        push_cast
        linear_combination (24 : ℚ) * heq
    · refine ⟨24 * k + (-9) * 25^(n + 2), ?_, ?_⟩
      · exact Even.add_odd ⟨12 * k, by ring⟩
          (Odd.mul ⟨-5, by norm_num⟩ (Odd.pow ⟨12, by norm_num⟩))
      · rw [w0sp_rec (n + 1), sgn_of_pos hpos]
        push_cast
        linear_combination (24 : ℚ) * heq

theorem w0sp_ne_zero : ∀ n : ℕ, w0sp n ≠ 0 := by
  intro n
  cases n with
  | zero => rw [w0sp_zero]; norm_num
  | succ n =>
    obtain ⟨k, hk, heq⟩ := w0sp_scaled_odd n
    intro h0
    rw [h0, zero_mul] at heq
    have hk0 : k = 0 := by exact_mod_cast heq.symm
    rw [hk0] at hk
    obtain ⟨m, hm⟩ := hk
    omega

/-- The interval [-0.018, 0.042] is invariant for the w0 recurrence. -/
theorem w0sp_inv_step (n : ℕ)
    (h : -9/500 ≤ w0sp n ∧ w0sp n ≤ 21/500) :
    -9/500 ≤ w0sp (n + 1) ∧ w0sp (n + 1) ≤ 21/500 := by
  obtain ⟨hlo, hhi⟩ := h
  rw [w0sp_rec n]
  rcases lt_trichotomy (w0sp n) 0 with hneg | hzero | hpos
  · rw [sgn_of_neg hneg]
    constructor <;> linarith
  · rw [hzero]
    norm_num [sgn]
  · rw [sgn_of_pos hpos]
    constructor <;> linarith

/-- As long as w0 has stayed above 0.042, its distance to the
fixed point -0.45 of the positive branch has contracted by 0.96 at
each step. -/
theorem w0sp_above_decay : ∀ n : ℕ,
    (∀ k, k ≤ n → 21/500 < w0sp k) →
    w0sp n + 9/20 = (24/25)^n * (169/20) := by
  intro n
  induction n with
  | zero =>
    intro _
    rw [w0sp_zero]
    norm_num
  | succ n ih =>
    intro h
    have hn := ih (fun k hk => h k (Nat.le_succ_of_le hk))
    have hpos : 0 < w0sp n :=
      lt_trans (by norm_num) (h n (Nat.le_succ n))
    rw [w0sp_rec n, sgn_of_pos hpos]
    have hw : w0sp n = (24/25)^n * (169/20) - 9/20 := by linarith
    rw [hw]
    ring

/-- Either the run has already entered the invariant interval by step
n, or it has stayed strictly above 0.042 the whole time. -/
theorem w0sp_alt : ∀ n : ℕ,
    (∃ m, m ≤ n ∧ -9/500 ≤ w0sp m ∧ w0sp m ≤ 21/500) ∨
    (∀ k, k ≤ n → 21/500 < w0sp k) := by
  intro n
  induction n with
  | zero =>
    right
    intro k hk
    have hk0 : k = 0 := Nat.le_zero.mp hk
    rw [hk0, w0sp_zero]
    norm_num
  | succ n ih =>
    rcases ih with h | h
    · left
      obtain ⟨m, hm, hb⟩ := h
      exact ⟨m, Nat.le_succ_of_le hm, hb⟩
    · by_cases hnew : 21/500 < w0sp (n + 1)
      · right
        intro k hk
        rcases Nat.lt_or_ge k (n + 1) with hlt | hge
        · exact h k (Nat.lt_succ_iff.mp hlt)
        · have hke : k = n + 1 := le_antisymm hk hge
          rw [hke]
          exact hnew
      · left
        push_neg at hnew
        refine ⟨n + 1, le_rfl, ?_, hnew⟩
        have hpos : 0 < w0sp n := lt_trans (by norm_num) (h n le_rfl)
        have hgt := h n le_rfl
        rw [w0sp_rec n, sgn_of_pos hpos]
        linarith

/-- The run enters the invariant interval within the first 100
steps. -/
theorem w0sp_hits_interval :
    ∃ m, m ≤ 100 ∧ -9/500 ≤ w0sp m ∧ w0sp m ≤ 21/500 := by
  rcases w0sp_alt 100 with h | h
  · exact h
  · exfalso
    have hd := w0sp_above_decay 100 h
    have h100 := h 100 le_rfl
    have hnum : ((24:ℚ)/25)^100 * (169/20) < 246/500 := by norm_num
    linarith

theorem w0sp_inv_from (m : ℕ)
    (hm : -9/500 ≤ w0sp m ∧ w0sp m ≤ 21/500) :
    ∀ j : ℕ, -9/500 ≤ w0sp (m + j) ∧ w0sp (m + j) ≤ 21/500 := by
  intro j
  induction j with
  | zero => exact hm
  | succ j ih => exact w0sp_inv_step (m + j) ih

theorem w0sp_small_late (n : ℕ) (hn : 100 ≤ n) :
    -9/500 ≤ w0sp n ∧ w0sp n ≤ 21/500 := by
  obtain ⟨m, hm100, hmb⟩ := w0sp_hits_interval
  have hsplit : n = m + (n - m) := by omega
  rw [hsplit]
  exact w0sp_inv_from m hmb (n - m)

/-- Past step 100, a nonpositive w0 is followed by a positive one. -/
theorem w0sp_pos_soon (n : ℕ) (hn : 100 ≤ n) :
    0 < w0sp n ∨ 0 < w0sp (n + 1) := by
  rcases lt_trichotomy (w0sp n) 0 with hneg | hzero | hpos
  · right
    rw [w0sp_rec n, sgn_of_neg hneg]
    have hlo := (w0sp_small_late n hn).1
    linarith
  · exact absurd hzero (w0sp_ne_zero n)
  · left
    exact hpos

/-- Past step 100, w0 cannot stay positive for four consecutive
steps: while positive it decreases by more than 0.018 per step from a
value at most 0.042. -/
theorem w0sp_neg_soon (n : ℕ) (hn : 100 ≤ n) :
    w0sp n < 0 ∨ w0sp (n + 1) < 0 ∨ w0sp (n + 2) < 0 ∨
      w0sp (n + 3) < 0 := by
  by_contra hc
  push_neg at hc
  obtain ⟨h0, h1, h2, h3⟩ := hc
  have p0 : 0 < w0sp n := lt_of_le_of_ne h0 (Ne.symm (w0sp_ne_zero n))
  have p1 : 0 < w0sp (n + 1) :=
    lt_of_le_of_ne h1 (Ne.symm (w0sp_ne_zero (n + 1)))
  have p2 : 0 < w0sp (n + 2) :=
    lt_of_le_of_ne h2 (Ne.symm (w0sp_ne_zero (n + 2)))
  have hup : w0sp n ≤ 21/500 := (w0sp_small_late n hn).2
  have e0 : w0sp (n + 1) = (24/25) * w0sp n + 3/250 - 3/100 := by
    rw [w0sp_rec n, sgn_of_pos p0]
    ring
  have e1 : w0sp (n + 2) = (24/25) * w0sp (n + 1) + 3/250 - 3/100 := by
    rw [w0sp_rec (n + 1), sgn_of_pos p1]
    ring
  have e2 : w0sp (n + 3) = (24/25) * w0sp (n + 2) + 3/250 - 3/100 := by
    rw [w0sp_rec (n + 2), sgn_of_pos p2]
    ring
  linarith

/-- C4: in the L1-regularized run on the redefined loss
0.5*(w0-0.3)^2 + 2.5*(w1-2)^2 (start (8, 5), lr = 0.04,
alpha = 0.75, beta = 0), the w0 coordinate is pulled toward zero:
from step 100 on every iterate has |w0| at most 0.042, the sign of w0
keeps changing (arbitrarily late there are both positive and negative
iterates), yet at no step does w0 ever equal exactly 0. -/
theorem c4_near_sparsity :
    (∀ n : ℕ, w0sp n ≠ 0) ∧
    (∀ n : ℕ, 100 ≤ n → |w0sp n| ≤ 21/500) ∧
    (∀ N : ℕ, ∃ n : ℕ, N ≤ n ∧ 0 < w0sp n) ∧
    (∀ N : ℕ, ∃ n : ℕ, N ≤ n ∧ w0sp n < 0) := by
  refine ⟨w0sp_ne_zero, ?_, ?_, ?_⟩
  · intro n hn
    have h := w0sp_small_late n hn
    rw [abs_le]
    constructor <;> linarith [h.1, h.2]
  · intro N
    have hM100 : 100 ≤ max N 100 := le_max_right _ _
    have hMN : N ≤ max N 100 := le_max_left _ _
    rcases w0sp_pos_soon (max N 100) hM100 with h | h
    · exact ⟨max N 100, hMN, h⟩
    · exact ⟨max N 100 + 1, by omega, h⟩
  · intro N
    have hM100 : 100 ≤ max N 100 := le_max_right _ _
    have hMN : N ≤ max N 100 := le_max_left _ _
    rcases w0sp_neg_soon (max N 100) hM100 with h | h | h | h
    · exact ⟨max N 100, hMN, h⟩
    · exact ⟨max N 100 + 1, by omega, h⟩
    · exact ⟨max N 100 + 2, by omega, h⟩
    · exact ⟨max N 100 + 3, by omega, h⟩

/-- C4 witness: concrete instances of the four parts of
c4_near_sparsity. -/
theorem c4_near_sparsity_witness :
    w0sp 0 ≠ 0 ∧ |w0sp 100| ≤ 21/500 ∧
    (∃ n : ℕ, 7 ≤ n ∧ 0 < w0sp n) ∧ (∃ n : ℕ, 7 ≤ n ∧ w0sp n < 0) :=
  ⟨c4_near_sparsity.1 0, c4_near_sparsity.2.1 100 le_rfl,
   c4_near_sparsity.2.2.1 7, c4_near_sparsity.2.2.2 7⟩

end Distiller
